import Mathlib

/-!
Verification development for the repository-evaluation tool
(src/git_handler.py and src/evaluator.py).

Python strings are modelled as Lean `String` (a wrapper around `List Char`);
helper functions mirror the Python string methods used by the source.
Machine-level concerns (network, file system, subprocesses) are modelled as
explicit oracle data threaded through the functions; each `Option`-valued
oracle field records whether the corresponding external call succeeded and
what it returned.
-/

/-- Errors that Python code can raise and that the embedded functions
propagate. `json.JSONDecodeError` is represented separately, as the `none`
result of `json_loads`, because `_parse_response` catches exactly it. -/
inductive PyErr where
  | valueError
  | typeError
  | attributeError
deriving DecidableEq

/-- JSON values as produced by Python's `json.loads`. Numbers are modelled
as integers (the replies exercised by the spec use only integer numerals). -/
inductive Json where
  | null
  | bool (b : Bool)
  | num (n : Int)
  | str (s : String)
  | arr (l : List Json)
  | obj (kvs : List (String × Json))

/-- Python `len` on a string. -/
def pyLen (s : String) : Nat := s.data.length

/-- Python slicing `s[:n]` for a nonnegative bound. -/
def pySliceTo (n : Nat) (s : String) : String := String.mk (s.data.take n)

/-- The whitespace set of Python's `str.strip` and of the regex class `\s`
(ASCII part): space, tab, newline, carriage return, vertical tab, form feed. -/
def isPySpace (c : Char) : Bool :=
  c = ' ' || c = '\t' || c = '\n' || c = '\r' || c = '\x0b' || c = '\x0c'

/-- Python `str.strip()` with no arguments. -/
def pyStrip (s : String) : String :=
  String.mk (((s.data.dropWhile isPySpace).reverse.dropWhile isPySpace).reverse)

/-- Python `str.split(sep)` for a one-character separator: every occurrence
splits, empty pieces are kept, and the empty string yields `[""]`. -/
def splitOnChar (sep : Char) : List Char → List (List Char)
  | [] => [[]]
  | c :: rest =>
    match splitOnChar sep rest with
    | [] => [[]]
    | g :: gs => if c = sep then [] :: g :: gs else (c :: g) :: gs

/-- Python `'\n'.join(pieces)`. -/
def joinNL (pieces : List (List Char)) : List Char :=
  match pieces with
  | [] => []
  | [p] => p
  | p :: rest => p ++ '\n' :: joinNL rest

/-- Python `str.replace(pat, rep)` (all occurrences, left to right), with a
structural fuel argument so that the definition evaluates in the kernel. -/
def replaceAllGo (pat rep : List Char) : Nat → List Char → List Char
  | 0, l => l
  | _ + 1, [] => []
  | fuel + 1, c :: rest =>
    if pat ≠ [] && pat.isPrefixOf (c :: rest) then
      rep ++ replaceAllGo pat rep fuel ((c :: rest).drop pat.length)
    else
      c :: replaceAllGo pat rep fuel rest

/-- Python `str.replace(pat, rep)` on strings. -/
def pyReplace (s pat rep : String) : String :=
  String.mk (replaceAllGo pat.data rep.data s.data.length s.data)

/-- JSON whitespace accepted between tokens by `json.loads`. -/
def jsonWs (c : Char) : Bool := c = ' ' || c = '\t' || c = '\n' || c = '\r'

/-- Value of a hexadecimal digit, for `\uXXXX` escapes. -/
def hexVal (c : Char) : Option Nat :=
  if '0' ≤ c && c ≤ '9' then some (c.toNat - 48)
  else if 'a' ≤ c && c ≤ 'f' then some (c.toNat - 87)
  else if 'A' ≤ c && c ≤ 'F' then some (c.toNat - 55)
  else none

/-- Parse the body of a JSON string after the opening quote; returns the
decoded characters and the input remaining after the closing quote.
Unescaped control characters are rejected (strict mode of `json.loads`). -/
def parseStringBody : List Char → Option (List Char × List Char)
  | [] => none
  | c :: rest =>
    if c = '"' then some ([], rest)
    else if c = '\\' then
      match rest with
      | [] => none
      | e :: rest2 =>
        let esc : Option Char :=
          if e = '"' then some '"'
          else if e = '\\' then some '\\'
          else if e = '/' then some '/'
          else if e = 'b' then some '\x08'
          else if e = 'f' then some '\x0c'
          else if e = 'n' then some '\n'
          else if e = 'r' then some '\r'
          else if e = 't' then some '\t'
          else none
        match esc with
        | some ch =>
          match parseStringBody rest2 with
          | some (cs, r) => some (ch :: cs, r)
          | none => none
        | none =>
          if e = 'u' then
            match rest2 with
            | h1 :: h2 :: h3 :: h4 :: rest3 =>
              match hexVal h1, hexVal h2, hexVal h3, hexVal h4 with
              | some a, some b, some c2, some d =>
                match parseStringBody rest3 with
                | some (cs, r) =>
                  some (Char.ofNat (((a * 16 + b) * 16 + c2) * 16 + d) :: cs, r)
                | none => none
              | _, _, _, _ => none
            | _ => none
          else none
    else if c.toNat < 32 then none
    else
      match parseStringBody rest with
      | some (cs, r) => some (c :: cs, r)
      | none => none

/-- Parse a JSON integer numeral (optional minus sign, no leading zeros);
inputs carrying a fraction or an exponent are not modelled and rejected. -/
def parseNumberTok (l : List Char) : Option (Int × List Char) :=
  let neg : Bool := match l with | '-' :: _ => true | _ => false
  let l1 := match l with | '-' :: rest => rest | _ => l
  match l1 with
  | [] => none
  | d :: _ =>
    if !d.isDigit then none
    else
      let digits := l1.takeWhile (fun c => c.isDigit)
      let rest := l1.dropWhile (fun c => c.isDigit)
      if digits.length > 1 && d = '0' then none
      else
        match rest with
        | '.' :: _ => none
        | 'e' :: _ => none
        | 'E' :: _ => none
        | _ =>
          let n : Nat := digits.foldl (fun acc c => acc * 10 + (c.toNat - 48)) 0
          some (if neg then -(n : Int) else (n : Int), rest)

mutual

/-- Parse one JSON value (model of the recursive descent inside
`json.loads`), with structural fuel so that the kernel can evaluate it. -/
def parseValue : Nat → List Char → Option (Json × List Char)
  | 0, _ => none
  | fuel + 1, l =>
    match l.dropWhile jsonWs with
    | [] => none
    | c :: rest =>
      if c = '"' then
        match parseStringBody rest with
        | some (cs, r) => some (.str (String.mk cs), r)
        | none => none
      else if c = '[' then
        match (rest.dropWhile jsonWs) with
        | ']' :: r => some (.arr [], r)
        | _ => match parseArrItems fuel rest with
               | some (items, r) => some (.arr items, r)
               | none => none
      else if c = '{' then
        match (rest.dropWhile jsonWs) with
        | '}' :: r => some (.obj [], r)
        | _ => match parseObjItems fuel rest with
               | some (kvs, r) => some (.obj kvs, r)
               | none => none
      else if c = 't' then
        match rest with
        | 'r' :: 'u' :: 'e' :: r => some (.bool true, r)
        | _ => none
      else if c = 'f' then
        match rest with
        | 'a' :: 'l' :: 's' :: 'e' :: r => some (.bool false, r)
        | _ => none
      else if c = 'n' then
        match rest with
        | 'u' :: 'l' :: 'l' :: r => some (.null, r)
        | _ => none
      else
        match parseNumberTok (c :: rest) with
        | some (n, r) => some (.num n, r)
        | none => none

/-- Parse the comma-separated items of a non-empty JSON array, up to and
including the closing bracket. -/
def parseArrItems : Nat → List Char → Option (List Json × List Char)
  | 0, _ => none
  | fuel + 1, l =>
    match parseValue fuel l with
    | none => none
    | some (v, r) =>
      match r.dropWhile jsonWs with
      | ']' :: r2 => some ([v], r2)
      | ',' :: r2 =>
        match parseArrItems fuel r2 with
        | some (vs, r3) => some (v :: vs, r3)
        | none => none
      | _ => none

/-- Parse the members of a non-empty JSON object, up to and including the
closing brace. -/
def parseObjItems : Nat → List Char → Option (List (String × Json) × List Char)
  | 0, _ => none
  | fuel + 1, l =>
    match l.dropWhile jsonWs with
    | '"' :: rest =>
      match parseStringBody rest with
      | none => none
      | some (kcs, r) =>
        match r.dropWhile jsonWs with
        | ':' :: r2 =>
          match parseValue fuel r2 with
          | none => none
          | some (v, r3) =>
            match r3.dropWhile jsonWs with
            | '}' :: r4 => some ([(String.mk kcs, v)], r4)
            | ',' :: r4 =>
              match parseObjItems fuel r4 with
              | some (kvs, r5) => some ((String.mk kcs, v) :: kvs, r5)
              | none => none
            | _ => none
        | _ => none
    | _ => none

end

/-- Model of Python's `json.loads`: parse one value surrounded by optional
whitespace; `none` stands for a raised `json.JSONDecodeError`. -/
def json_loads (s : String) : Option Json :=
  match parseValue (2 * s.data.length + 2) s.data with
  | some (v, rest) => if rest.dropWhile jsonWs = [] then some v else none
  | none => none

/-- Result of `_parse_response`: the returned dict `{'score': ..., 'explanation': ...}`.
The explanation is a dynamically typed Python value (it is a string on every
well-behaved path, but the code can also pass a non-string through). -/
structure EvalResult where
  score : Int
  explanation : Json

/-- Python `dict.get(k)` on a JSON object; with duplicate keys the last
occurrence wins, as in a dict built by `json.loads`. -/
def dictGet (kvs : List (String × Json)) (k : String) : Option Json :=
  (kvs.reverse.find? (fun p => p.1 == k)).map (fun p => p.2)

/-- Python `dict.get(k, d)`. -/
def dictGetD (kvs : List (String × Json)) (k : String) (d : Json) : Json :=
  (dictGet kvs k).getD d

/-- Python truthiness of a JSON-decoded value. -/
def pyTruthy : Json → Bool
  | .null => false
  | .bool b => b
  | .num n => n != 0
  | .str s => s != ""
  | .arr l => !l.isEmpty
  | .obj kvs => !kvs.isEmpty

/-- Python `int(...)` applied to a decoded string: optional surrounding
whitespace, optional sign, decimal digits. -/
def pyIntOfStr (s : String) : Option Int :=
  let t := ((s.data.dropWhile isPySpace).reverse.dropWhile isPySpace).reverse
  let neg : Bool := match t with | '-' :: _ => true | _ => false
  let ds := match t with
            | '-' :: rest => rest
            | '+' :: rest => rest
            | _ => t
  if ds ≠ [] && ds.all (fun c => c.isDigit) then
    let n : Nat := ds.foldl (fun acc c => acc * 10 + (c.toNat - 48)) 0
    some (if neg then -(n : Int) else (n : Int))
  else none

/-- Python `int(x)` on a JSON-decoded value: ints pass through, bools map to
0/1, numeric strings are parsed (`ValueError` otherwise), and `None`, lists
and dicts raise `TypeError`. -/
def pyInt : Json → Except PyErr Int
  | .num n => .ok n
  | .bool b => .ok (if b then 1 else 0)
  | .str s =>
    match pyIntOfStr s with
    | some n => .ok n
    | none => .error .valueError
  | .null => .error .typeError
  | .arr _ => .error .typeError
  | .obj _ => .error .typeError

/-- Python `for x in v`: lists iterate elements, strings iterate characters,
dicts iterate keys; other JSON-decoded values raise `TypeError`. -/
def pyIter : Json → Except PyErr (List Json)
  | .arr l => .ok l
  | .str s => .ok (s.data.map (fun c => .str (String.mk [c])))
  | .obj kvs => .ok (kvs.map (fun p => .str p.1))
  | .null => .error .typeError
  | .bool _ => .error .typeError
  | .num _ => .error .typeError

/-- Python `v > 0` on a JSON-decoded value: ints and bools compare, anything
else raises `TypeError`. -/
def pyGtZero : Json → Except PyErr Bool
  | .num n => .ok (decide (0 < n))
  | .bool b => .ok b
  | .null => .error .typeError
  | .str _ => .error .typeError
  | .arr _ => .error .typeError
  | .obj _ => .error .typeError

/-- Python `x += s` where `s` is a string: succeeds only when `x` is itself a
string, raising `TypeError` otherwise. -/
def pyAddStr (de : Json) (s : String) : Except PyErr Json :=
  match de with
  | .str t => .ok (.str (t ++ s))
  | _ => .error .typeError

/-- Escaping used by the model of Python `repr` on strings (backslash,
quote and the common control characters). -/
def reprEscape : List Char → List Char
  | [] => []
  | c :: rest =>
    (if c = '\\' then "\\\\".data
     else if c = '\x27' then "\\\x27".data
     else if c = '\n' then "\\n".data
     else if c = '\r' then "\\r".data
     else if c = '\t' then "\\t".data
     else [c]) ++ reprEscape rest

mutual

/-- Model of Python `repr` on a JSON-decoded value. -/
def pyRepr : Json → String
  | .null => "None"
  | .bool true => "True"
  | .bool false => "False"
  | .num n => toString n
  | .str s => "\x27" ++ String.mk (reprEscape s.data) ++ "\x27"
  | .arr l => "[" ++ pyReprList l ++ "]"
  | .obj kvs => "\x7b" ++ pyReprObj kvs ++ "\x7d"

/-- Comma-separated `repr`s of the elements of a decoded list. -/
def pyReprList : List Json → String
  | [] => ""
  | [j] => pyRepr j
  | j :: rest => pyRepr j ++ ", " ++ pyReprList rest

/-- Comma-separated `key: value` pairs of a decoded dict. -/
def pyReprObj : List (String × Json) → String
  | [] => ""
  | [(k, v)] => "\x27" ++ String.mk (reprEscape k.data) ++ "\x27: " ++ pyRepr v
  | (k, v) :: rest =>
    "\x27" ++ String.mk (reprEscape k.data) ++ "\x27: " ++ pyRepr v ++ ", " ++ pyReprObj rest

end

/-- Model of Python `str(x)` on a JSON-decoded value, as used in the
f-strings of `_parse_response`. -/
def pyStr (j : Json) : String :=
  match j with
  | .str s => s
  | _ => pyRepr j

/-- One row of the rendered evaluation table (`for item in data['evaluation_table']`
loop body): `item.get` raises `AttributeError` on a non-dict element, cell
texts get their pipes escaped, and the points cell shows `a/p` only when
`points_possible > 0`. -/
def renderRow (item : Json) : Except PyErr String :=
  match item with
  | .obj ikvs =>
    let req := pyReplace (pyStr (dictGetD ikvs "requirement" (.str "N/A"))) "|" "\\|"
    let expected := pyReplace (pyStr (dictGetD ikvs "expected" (.str "N/A"))) "|" "\\|"
    let actual := pyReplace (pyStr (dictGetD ikvs "actual" (.str "N/A"))) "|" "\\|"
    let pa := dictGetD ikvs "points_awarded" (.num 0)
    let pp := dictGetD ikvs "points_possible" (.num 0)
    let justification := pyReplace (pyStr (dictGetD ikvs "justification" (.str "N/A"))) "|" "\\|"
    match pyGtZero pp with
    | .error e => .error e
    | .ok gt =>
      let points_str := if gt then pyStr pa ++ "/" ++ pyStr pp else pyStr pa
      .ok ("| " ++ req ++ " | " ++ expected ++ " | " ++ actual ++ " | " ++
           points_str ++ " | " ++ justification ++ " |\n")
  | _ => .error .attributeError

/-- The `evaluation_table` block of `_parse_response`: when the key is
present and truthy, append the table header and one rendered row per item. -/
def appendTable (kvs : List (String × Json)) (de : Json) : Except PyErr Json :=
  match dictGet kvs "evaluation_table" with
  | some v =>
    if pyTruthy v then do
      let de2 ← pyAddStr de ("\n\n## 📊 Detailed Evaluation Table\n\n" ++
        "| Requirement | Expected | Actual Work Done | Points Awarded | Justification |\n" ++
        "|------------|----------|------------------|----------------|---------------|\n")
      let items ← pyIter v
      items.foldlM (fun d item => do
        let row ← renderRow item
        pyAddStr d row) de2
    else pure de
  | none => pure de

/-- The `summary` block of `_parse_response`: header first, then one bullet
per field (`summary.get` raises `AttributeError` when `summary` is not a
dict, after the header has been appended, as in the source). -/
def appendSummary (kvs : List (String × Json)) (de : Json) : Except PyErr Json :=
  match dictGet kvs "summary" with
  | some v =>
    if pyTruthy v then do
      let de2 ← pyAddStr de "\n\n## 📈 Evaluation Summary\n\n"
      match v with
      | .obj skvs =>
        let de3 ← pyAddStr de2
          ("- **Total Points Awarded**: " ++ pyStr (dictGetD skvs "total_points_awarded" (.num 0)) ++ "\n")
        let de4 ← pyAddStr de3
          ("- **Total Points Possible**: " ++ pyStr (dictGetD skvs "total_points_possible" (.num 0)) ++ "\n")
        let de5 ← pyAddStr de4
          ("- **Requirements Fully Met**: " ++ pyStr (dictGetD skvs "requirements_fully_met" (.num 0)) ++ "\n")
        let de6 ← pyAddStr de5
          ("- **Requirements Partially Met**: " ++ pyStr (dictGetD skvs "requirements_partially_met" (.num 0)) ++ "\n")
        pyAddStr de6
          ("- **Requirements Not Met**: " ++ pyStr (dictGetD skvs "requirements_not_met" (.num 0)) ++ "\n")
      | _ => .error .attributeError
    else pure de
  | none => pure de

/-- The legacy `strengths` / `weaknesses` / `missing_features` blocks:
when the key is present and truthy, append the section header then one
bullet per element. -/
def appendListSection (kvs : List (String × Json)) (key header : String) (de : Json) :
    Except PyErr Json :=
  match dictGet kvs key with
  | some v =>
    if pyTruthy v then do
      let de2 ← pyAddStr de header
      let items ← pyIter v
      items.foldlM (fun d it => pyAddStr d ("- " ++ pyStr it ++ "\n")) de2
    else pure de
  | none => pure de

/-- The success branch of `_parse_response` after `json.loads` returned
`data`: read and clamp the score, read the explanation (with its fixed
default), then append the table, summary and legacy sections. A non-dict
payload raises `AttributeError`, exactly as `data.get` does. -/
def parseSuccess (data : Json) : Except PyErr EvalResult :=
  match data with
  | .obj kvs => do
    let s ← pyInt (dictGetD kvs "score" (.num 0))
    let score := max 0 (min 100 s)
    let explanation := dictGetD kvs "explanation" (.str "No explanation provided.")
    let de1 ← appendTable kvs explanation
    let de2 ← appendSummary kvs de1
    let de3 ← appendListSection kvs "strengths" "\n\n### ✅ Strengths:\n" de2
    let de4 ← appendListSection kvs "weaknesses" "\n\n### ❌ Weaknesses:\n" de3
    let de5 ← appendListSection kvs "missing_features" "\n\n### ⚠️ Missing Features:\n" de4
    .ok ⟨score, de5⟩
  | _ => .error .attributeError

/-- The markdown de-fencing step: if the trimmed reply starts with three
backquotes, drop its first and last line, but only when it has more than
two lines. -/
def deFence (r : String) : String :=
  if "```".data.isPrefixOf r.data then
    let lines := splitOnChar '\n' r.data
    if lines.length > 2 then String.mk (joinNL (lines.drop 1).dropLast) else r
  else r

/-- The preprocessing of `_parse_response`: trim, then best-effort removal
of a markdown code fence. -/
def stripAndDefence (response : String) : String := deFence (pyStrip response)

/-- The two quote characters accepted after the score key by the fallback
pattern. -/
def quoteChars : List Char := "\"\x27".data

/-- Case-insensitive literal matcher (the pattern is given in lowercase);
returns the remaining input on success. -/
def matchLitCI : List Char → List Char → Option (List Char)
  | [], rest => some rest
  | _ :: _, [] => none
  | p :: ps, c :: cs => if c.toLower = p then matchLitCI ps cs else none

/-- Try the fallback score pattern at the current position: the literal
`score`, an optional quote, optional whitespace, `:` or `=`, optional
whitespace, then at least one digit; returns the digit group. -/
def matchScoreAt (l : List Char) : Option (List Char) :=
  match matchLitCI "score".data l with
  | none => none
  | some rest =>
    let rest2 := match rest with
                 | c :: cs => if c ∈ quoteChars then cs else c :: cs
                 | [] => []
    match rest2.dropWhile isPySpace with
    | c :: cs =>
      if c = ':' || c = '=' then
        let digits := (cs.dropWhile isPySpace).takeWhile (fun c2 => c2.isDigit)
        if digits ≠ [] then some digits else none
      else none
    | [] => none

/-- `re.search` driver: try the matcher at every position, leftmost match
first. -/
def searchSuffix {α : Type} (f : List Char → Option α) : List Char → Option α
  | [] => f []
  | c :: cs =>
    match f (c :: cs) with
    | some r => some r
    | none => searchSuffix f cs

/-- Numeric value of the matched digit group. -/
def digitsToNat (ds : List Char) : Nat :=
  ds.foldl (fun acc c => acc * 10 + (c.toNat - 48)) 0

/-- The permissive score search of the fallback branch
(`re.search(r'score["\x27]?\s*[:=]\s*(\d+)', response, re.IGNORECASE)`). -/
def reSearchScore (l : List Char) : Option (List Char) := searchSuffix matchScoreAt l

/-- The `json.JSONDecodeError` fallback of `_parse_response`: extract the
first permissively matched score (default 50), clamp it, and return the
processed reply text as the explanation. -/
def fallbackParse (r : String) : EvalResult :=
  let score : Int := match reSearchScore r.data with
                     | some ds => (digitsToNat ds : Int)
                     | none => 50
  ⟨max 0 (min 100 score), .str r⟩

/-- `ProjectEvaluator._parse_response`: trim and de-fence the reply, attempt
strict JSON parsing, and on decode failure run the permissive fallback.
Only the decode error is caught; other exceptions escape as `.error`. -/
def parse_response (response : String) : Except PyErr EvalResult :=
  let r := stripAndDefence response
  match json_loads r with
  | some data => parseSuccess data
  | none => .ok (fallbackParse r)

/-- One retrieved source file, as stored in the `files` list of a repository
info dict (`path`, `name`, `content`, `size`). -/
structure FileRec where
  path : String
  name : String
  content : String
  size : Nat

/-- The recognized code/text extension set of `GitHandler` (used both by
`_scan_repository` and `_is_code_file`). -/
def codeExtensions : List String :=
  [".py", ".js", ".ts", ".jsx", ".tsx", ".java", ".cpp", ".c", ".h",
   ".cs", ".go", ".rs", ".rb", ".php", ".swift", ".kt", ".scala",
   ".html", ".css", ".vue", ".svelte", ".json", ".yaml", ".yml",
   ".md", ".sh", ".sql", ".r", ".m", ".ml", ".fs"]

/-- `GitHandler._is_code_file`: does the filename end with one of the
recognized extensions? -/
def is_code_file (filename : String) : Bool :=
  codeExtensions.any (fun ext => ext.data.isSuffixOf filename.data)

/-- The ignored directory names of `_scan_repository`. -/
def ignoreDirs : List String :=
  [".git", "__pycache__", "node_modules", ".venv", "venv",
   "env", ".env", "dist", "build", ".idea", ".vscode", "target"]

/-- `pathlib.Path(...).suffix` of a file name: the extension including its
dot, empty when the name has no dot, only a leading dot, or a trailing dot. -/
def pathSuffix (name : String) : String :=
  let rev := name.data.reverse
  let pre := rev.takeWhile (fun c => c ≠ '.')
  if pre.length = rev.length then ""
  else if pre.length = 0 then ""
  else if pre.length + 1 = rev.length then ""
  else String.mk ('.' :: pre.reverse)

/-- The content cap of `_scan_repository`: contents longer than 50,000
characters are cut at 50,000 and the truncation marker is appended. -/
def capScanContent (content : String) : String :=
  if 50000 < pyLen content then pySliceTo 50000 content ++ "\n... (truncated)"
  else content

/-- One directory entry yielded by `Path.rglob('*')` during the local scan.
`parts` are the full path components (used by the ignore-directory check),
`relPath` is the path relative to the repository root, and `readResult`
records whether `read_text`/`stat` succeeded (`none` models an exception,
which skips the file). -/
structure FsFile where
  parts : List String
  name : String
  relPath : String
  readResult : Option String
  size : Nat
  isFile : Bool

/-- The `rglob` loop of `GitHandler._scan_repository`: skip non-files,
ignored paths, unrecognized extensions and unreadable files; cap the
content; and break as soon as `maxF` records have been collected. -/
def scanGo (maxF : Nat) : List FsFile → List FileRec → List FileRec
  | [], acc => acc
  | f :: rest, acc =>
    if f.isFile then
      if ignoreDirs.any (fun d => f.parts.contains d) then scanGo maxF rest acc
      else if codeExtensions.contains (pathSuffix f.name) then
        match f.readResult with
        | some content =>
          let acc2 := acc ++ [⟨f.relPath, f.name, capScanContent content, f.size⟩]
          if maxF ≤ acc2.length then acc2 else scanGo maxF rest acc2
        | none => scanGo maxF rest acc
      else scanGo maxF rest acc
    else scanGo maxF rest acc

/-- `GitHandler._scan_repository` over the `rglob` listing of the cloned
tree. -/
def scanRepository (files : List FsFile) (maxF : Nat) : List FileRec :=
  scanGo maxF files []

/-- One entry of a GitHub contents listing, as consumed by
`_extract_files_info`. For a file, `download` is the outcome of fetching
`download_url` (`none` models an exception or a non-200 status, both of
which skip the file); for a directory, `listing` is the outcome of fetching
its `url` (`none` models an exception or a non-200 status, both of which
skip the directory). -/
inductive Entry where
  | file (name path : String) (size : Nat) (download : Option String)
  | dir (listing : Option (List Entry))
  | other

mutual

/-- Size of one listing entry, used as the structural fuel bound of
`extractGo` (one unit per entry, so the fuel always outlasts the walk). -/
def entrySize : Entry → Nat
  | .file _ _ _ _ => 1
  | .dir none => 1
  | .dir (some sub) => 1 + entryListSize sub
  | .other => 1

/-- Total size of a listing. -/
def entryListSize : List Entry → Nat
  | [] => 0
  | e :: rest => 1 + entrySize e + entryListSize rest

end

/-- `GitHandler._extract_files_info`: iterate over `contents[:max_files]`
(the counter `k` is the number of sliced items left). File entries with a
recognized extension and a successful fetch are appended, with content cut
at 50,000 characters and no budget re-check; directory entries are recursed
into only while the budget has room, with the remaining budget passed down.
The first argument is structural fuel, always supplied above the listing
size, so the fuel-exhausted branch is unreachable. -/
def extractGo : Nat → List Entry → Nat → List FileRec → Nat → List FileRec
  | 0, _, _, acc, _ => acc
  | _ + 1, [], _, acc, _ => acc
  | _ + 1, _ :: _, 0, acc, _ => acc
  | fuel + 1, .file name path size download :: rest, k + 1, acc, maxF =>
    let acc2 :=
      if is_code_file name then
        match download with
        | some body => acc ++ [⟨path, name, pySliceTo 50000 body, size⟩]
        | none => acc
      else acc
    extractGo fuel rest k acc2 maxF
  | fuel + 1, .dir listing :: rest, k + 1, acc, maxF =>
    let acc2 :=
      if acc.length < maxF then
        match listing with
        | some sub => acc ++ extractGo fuel sub (maxF - acc.length) [] (maxF - acc.length)
        | none => acc
      else acc
    extractGo fuel rest k acc2 maxF
  | fuel + 1, .other :: rest, k + 1, acc, maxF => extractGo fuel rest k acc maxF

/-- `GitHandler._extract_files_info` entry point (50 is the default
`max_files` used by `_get_repo_via_api`). -/
def extractFilesInfo (contents : List Entry) (maxF : Nat) : List FileRec :=
  extractGo (entryListSize contents + 1) contents maxF [] maxF

/-- The language map of `_detect_language`. -/
def langMap : List (String × String) :=
  [(".py", "Python"), (".js", "JavaScript"), (".ts", "TypeScript"),
   (".java", "Java"), (".cpp", "C++"), (".c", "C"), (".cs", "C#"),
   (".go", "Go"), (".rs", "Rust"), (".rb", "Ruby"), (".php", "PHP"),
   (".swift", "Swift"), (".kt", "Kotlin"), (".scala", "Scala"),
   (".html", "HTML"), (".css", "CSS"), (".vue", "Vue"), (".r", "R")]

/-- `GitHandler._detect_language`: count files by extension in insertion
order, take the first most frequent extension, and map it to a language
name (falling back to the extension uppercased without its dot). -/
def detectLanguage (files : List FileRec) : String :=
  if files.isEmpty then "Unknown"
  else
    let extensions := files.foldl (fun acc f =>
      let ext := pathSuffix f.name
      if acc.any (fun p => p.1 == ext) then
        acc.map (fun p => if p.1 == ext then (p.1, p.2 + 1) else p)
      else acc ++ [(ext, 1)]) ([] : List (String × Nat))
    match extensions with
    | [] => "Unknown"
    | p :: rest =>
      let best := rest.foldl (fun b q => if q.2 > b.2 then q else b) p
      match langMap.find? (fun q => q.1 == best.1) with
      | some q => q.2
      | none =>
        if best.1 = "" then "Unknown"
        else String.mk ((best.1.data.drop 1).map Char.toUpper)

/-- Outcome of the repository-info request
(`GET /repos/{owner}/{repo}`): `exn` models a raised exception in
`requests.get`; otherwise a status code and the result of `.json()`
(`none` models a body on which `.json()` raises). -/
inductive RepoReqOutcome where
  | exn
  | resp (status : Nat) (body : Option Json)

/-- Outcome of the directory-listing request
(`GET /repos/{owner}/{repo}/contents`): `exn` models a raised exception;
otherwise a status code and the decoded listing (`none` models a body whose
decoding or entry processing raises). -/
inductive ContentsReqOutcome where
  | exn
  | resp (status : Nat) (body : Option (List Entry))

/-- The external world of one `get_repository_info` call: the configured
token, the outcomes of the two API requests, the outcome of the shallow
clone (`none` models a non-zero exit, a timeout or any other exception, and
`some files` the `rglob` listing of the checked-out tree), and the path of
the temporary directory created by `mkdtemp`. -/
structure World where
  github_token : Option String
  repoReq : RepoReqOutcome
  contentsReq : ContentsReqOutcome
  cloneResult : Option (List FsFile)
  temp_dir : String

/-- The repository-info dict assembled by `GitHandler` (string-valued
fields are `Json` because the API path passes decoded values through). -/
structure RepoInfo where
  name : Json
  full_name : Json
  description : Json
  language : Json
  url : Json
  files : List FileRec
  source : String
  local_path : Option String

/-- Python truthiness of `self.github_token` (unset or empty is falsy). -/
def tokenTruthy (t : Option String) : Bool :=
  match t with
  | none => false
  | some s => s != ""

/-- The dict assembled at the end of `_get_repo_via_api`. -/
def mkApiInfo (kvs : List (String × Json)) (owner repo : String) (files : List FileRec) :
    RepoInfo :=
  { name := dictGetD kvs "name" (.str repo)
    full_name := dictGetD kvs "full_name" (.str (owner ++ "/" ++ repo))
    description := dictGetD kvs "description" (.str "")
    language := dictGetD kvs "language" (.str "Unknown")
    url := dictGetD kvs "html_url" (.str ("https://github.com/" ++ owner ++ "/" ++ repo))
    files := files
    source := "api"
    local_path := none }

/-- `GitHandler._get_repo_via_api`: skip when the token is falsy; any
exception inside the `try` (either request raising, `.json()` failing, or
the repo payload not being a dict) and any non-200 repository-info status
yield `None`; a non-200 directory-listing status only leaves `files` empty. -/
def getRepoViaApi (w : World) (owner repo : String) : Option RepoInfo :=
  if !tokenTruthy w.github_token then none
  else
    match w.repoReq with
    | .exn => none
    | .resp status body =>
      if status ≠ 200 then none
      else
        match body with
        | some (.obj kvs) =>
          match w.contentsReq with
          | .exn => none
          | .resp cst cbody =>
            if cst = 200 then
              match cbody with
              | some entries => some (mkApiInfo kvs owner repo (extractFilesInfo entries 50))
              | none => none
            else some (mkApiInfo kvs owner repo [])
        | _ => none

/-- `url.split('/')[-1]`. -/
def lastSegment (url : String) : String :=
  match (splitOnChar '/' url.data).getLast? with
  | some l => String.mk l
  | none => ""

/-- `GitHandler._get_repo_via_clone`: on clone success, scan the checkout at
`<temp_dir>/repo` and assemble the dict; the directory name of the checkout
is the constant `'repo'` and the description is empty. -/
def getRepoViaClone (w : World) (git_url : String) : Option RepoInfo :=
  match w.cloneResult with
  | none => none
  | some files =>
    let files_info := scanRepository files 50
    some { name := .str "repo"
           full_name := .str (pyReplace (lastSegment git_url) ".git" "")
           description := .str ""
           language := .str (detectLanguage files_info)
           url := .str git_url
           files := files_info
           source := "clone"
           local_path := some (w.temp_dir ++ "/repo") }

/-- Case-sensitive literal matcher; returns the remaining input. -/
def matchLit : List Char → List Char → Option (List Char)
  | [], rest => some rest
  | _ :: _, [] => none
  | p :: ps, c :: cs => if c = p then matchLit ps cs else none

/-- Can the strict pattern `(?:\.git)?/?$` match the whole remaining input
`u`? (`$` also matches just before a final newline.) -/
def suffix1Ok (u : List Char) : Bool :=
  u == [] || u == "/".data || u == "\n".data || u == "/\n".data ||
  u == ".git".data || u == ".git/".data || u == ".git\n".data || u == ".git/\n".data

/-- Can the loose pattern `(?:/.*)?$` match the whole remaining input `u`?
(`.` does not match a newline; `$` also matches just before a final one.) -/
def suffix2Ok (u : List Char) : Bool :=
  match u with
  | [] => true
  | ['\n'] => true
  | '/' :: w => !(w.dropLast.contains '\n')
  | _ => false

/-- The lazy repo group `([^/]+?)` of the strict pattern: the shortest
nonempty slash-free prefix whose remainder the strict tail can match. -/
def findRepo1Go (acc : List Char) : List Char → Option (List Char)
  | [] => none
  | c :: rest =>
    if c = '/' then none
    else if suffix1Ok rest then some (acc ++ [c])
    else findRepo1Go (acc ++ [c]) rest

/-- The lazy repo group `([^/]+?)` of the loose pattern. -/
def findRepo2Go (acc : List Char) : List Char → Option (List Char)
  | [] => none
  | c :: rest =>
    if c = '/' then none
    else if suffix2Ok rest then some (acc ++ [c])
    else findRepo2Go (acc ++ [c]) rest

/-- Try the strict pattern `github\.com[:/]([^/]+)/([^/]+?)(?:\.git)?/?$`
at the current position; returns the two captured groups. -/
def tryPat1 (l : List Char) : Option (List Char × List Char) :=
  match matchLit "github.com".data l with
  | none => none
  | some rest =>
    match rest with
    | c :: rest2 =>
      if c = ':' || c = '/' then
        let owner := rest2.takeWhile (fun c2 => c2 ≠ '/')
        match rest2.dropWhile (fun c2 => c2 ≠ '/') with
        | '/' :: t =>
          if owner.isEmpty then none
          else
            match findRepo1Go [] t with
            | some rp => some (owner, rp)
            | none => none
        | _ => none
      else none
    | [] => none

/-- Try the loose pattern `github\.com[:/]([^/]+)/([^/]+?)(?:/.*)?$` at the
current position; returns the two captured groups. -/
def tryPat2 (l : List Char) : Option (List Char × List Char) :=
  match matchLit "github.com".data l with
  | none => none
  | some rest =>
    match rest with
    | c :: rest2 =>
      if c = ':' || c = '/' then
        let owner := rest2.takeWhile (fun c2 => c2 ≠ '/')
        match rest2.dropWhile (fun c2 => c2 ≠ '/') with
        | '/' :: t =>
          if owner.isEmpty then none
          else
            match findRepo2Go [] t with
            | some rp => some (owner, rp)
            | none => none
        | _ => none
      else none
    | [] => none

/-- Python `str.rstrip('/')`. -/
def rstripSlash (s : String) : String :=
  String.mk ((s.data.reverse.dropWhile (fun c => c = '/')).reverse)

/-- `GitHandler._parse_github_url`: `re.search` the strict pattern, then
the loose one; the first match wins, and the repo group gets `rstrip('/')`
applied. -/
def parseGithubUrl (url : String) : Option String × Option String :=
  match searchSuffix tryPat1 url.data with
  | some (o, r) => (some (String.mk o), some (rstripSlash (String.mk r)))
  | none =>
    match searchSuffix tryPat2 url.data with
    | some (o, r) => (some (String.mk o), some (rstripSlash (String.mk r)))
    | none => (none, none)

/-- `GitHandler.get_repository_info`: resolve the URL (raising `ValueError`
on a falsy owner or repo), try the API path, and fall back to the clone
path when it returned `None`. -/
def get_repository_info (w : World) (git_url : String) : Except PyErr (Option RepoInfo) :=
  match parseGithubUrl git_url with
  | (some owner, some repo) =>
    if owner = "" || repo = "" then .error .valueError
    else
      match getRepoViaApi w owner repo with
      | some info => .ok (some info)
      | none => .ok (getRepoViaClone w git_url)
  | _ => .error .valueError

/-! Concrete inputs used by counterexamples and witnesses. -/

/-- The structured reply of the end-to-end scenario (3-file snapshot,
login-form description). -/
def c9reply : String :=
  "\x7b\"score\": 80, \"explanation\": \"Login present\", \"strengths\": [\"login\"], \"weaknesses\": []\x7d"

/-- A 50,001-character file content, one character over the scan cap. -/
def longContent : String := String.mk (List.replicate 50001 'a')

/-- A local file whose content is one character over the cap. -/
def fsLongFile : FsFile := ⟨["a.py"], "a.py", "a.py", some longContent, 50001, true⟩

/-- An API file entry whose fetched body is one character over the cap. -/
def apiLongEntry : Entry := Entry.file "a.py" "a.py" 50001 (some longContent)

/-- A directory listing of 50 fetchable code files. -/
def apiDirListing : List Entry :=
  List.replicate 50 (Entry.file "a.py" "d/a.py" 3 (some "code"))

/-- A top-level listing holding a full subdirectory followed by one more
file: the file is appended after the recursion filled the budget. -/
def apiContentsOverCap : List Entry :=
  [Entry.dir (some apiDirListing), Entry.file "b.py" "b.py" 3 (some "code")]

/-- 60 scannable local files (more than the cap). -/
def scanManyFiles : List FsFile :=
  List.replicate 60 ⟨["a.py"], "a.py", "a.py", some "x", 1, true⟩

/-- One extra scannable local file. -/
def scanExtraFiles : List FsFile := [⟨["b.py"], "b.py", "b.py", some "y", 1, true⟩]

/-- A world where the token is set, the repository-info request succeeds,
but the directory-listing request returns 404; the clone target is
reachable. -/
def worldDirListing404 : World :=
  ⟨some "tok", .resp 200 (some (.obj [("name", Json.str "n")])), .resp 404 none, some [], "/tmp/t"⟩

/-- A world where both API requests raise and the clone target is
reachable. -/
def worldApiExn : World := ⟨some "tok", .exn, .exn, some [], "/tmp/t"⟩

/-- A world with no token configured and a reachable clone target holding
one Python file. -/
def worldNoToken : World :=
  ⟨none, .resp 200 (some (.obj [])), .resp 200 (some []),
   some [⟨["m.py"], "m.py", "m.py", some "pass", 4, true⟩], "/tmp/x"⟩

/-- A world with an empty successful clone. -/
def worldCloneOnly : World := ⟨none, .exn, .exn, some [], "/t"⟩


/-! Helper lemmas shared between the claim theorems. -/

theorem stringMkData (s : String) : String.mk s.data = s := rfl

theorem score_clamp_bounds (s : Int) : 0 ≤ max 0 (min 100 s) ∧ max 0 (min 100 s) ≤ 100 :=
  ⟨le_max_left 0 _, max_le (by norm_num) (min_le_left _ _)⟩

theorem parseSuccess_score (d : Json) (res : EvalResult) (h : parseSuccess d = .ok res) :
    0 ≤ res.score ∧ res.score ≤ 100 := by
  cases d with
  | obj kvs =>
    unfold parseSuccess at h
    simp only [bind, Except.bind] at h
    cases hp : pyInt (dictGetD kvs "score" (Json.num 0)) with
    | error e => simp only [hp] at h; exact Except.noConfusion h
    | ok s =>
      simp only [hp] at h
      cases h1 : appendTable kvs (dictGetD kvs "explanation" (Json.str "No explanation provided.")) with
      | error e => simp only [h1] at h; exact Except.noConfusion h
      | ok de1 =>
        simp only [h1] at h
        cases h2 : appendSummary kvs de1 with
        | error e => simp only [h2] at h; exact Except.noConfusion h
        | ok de2 =>
          simp only [h2] at h
          cases h3 : appendListSection kvs "strengths" "\n\n### ✅ Strengths:\n" de2 with
          | error e => simp only [h3] at h; exact Except.noConfusion h
          | ok de3 =>
            simp only [h3] at h
            cases h4 : appendListSection kvs "weaknesses" "\n\n### ❌ Weaknesses:\n" de3 with
            | error e => simp only [h4] at h; exact Except.noConfusion h
            | ok de4 =>
              simp only [h4] at h
              cases h5 : appendListSection kvs "missing_features" "\n\n### ⚠️ Missing Features:\n" de4 with
              | error e => simp only [h5] at h; exact Except.noConfusion h
              | ok de5 =>
                simp only [h5, Except.ok.injEq] at h
                rw [← h]
                exact score_clamp_bounds s
  | null => simp [parseSuccess] at h
  | bool b => simp [parseSuccess] at h
  | num n => simp [parseSuccess] at h
  | str s => simp [parseSuccess] at h
  | arr l => simp [parseSuccess] at h

theorem splitOnChar_ne_nil (sep : Char) (l : List Char) : splitOnChar sep l ≠ [] := by
  induction l with
  | nil => simp [splitOnChar]
  | cons c rest ih =>
    simp only [splitOnChar]
    cases hs : splitOnChar sep rest with
    | nil => exact absurd hs ih
    | cons g gs => split_ifs <;> simp

theorem splitOnChar_append_sep (sep : Char) (xs ys : List Char) (h : ∀ c ∈ xs, c ≠ sep) :
    splitOnChar sep (xs ++ sep :: ys) = xs :: splitOnChar sep ys := by
  induction xs with
  | nil =>
    show (match splitOnChar sep ys with
          | [] => [[]]
          | g :: gs => if sep = sep then [] :: g :: gs else (sep :: g) :: gs) = _
    cases hs : splitOnChar sep ys with
    | nil => exact absurd hs (splitOnChar_ne_nil sep ys)
    | cons g gs => simp [← hs]
  | cons x xs ih =>
    have hx : x ≠ sep := h x (List.mem_cons_self x xs)
    have h1 : ∀ c ∈ xs, c ≠ sep := fun c hc => h c (List.mem_cons_of_mem x hc)
    calc splitOnChar sep ((x :: xs) ++ sep :: ys)
        = (match splitOnChar sep (xs ++ sep :: ys) with
           | [] => [[]]
           | g :: gs => if x = sep then [] :: g :: gs else (x :: g) :: gs) := rfl
      _ = (x :: xs) :: splitOnChar sep ys := by rw [ih h1]; simp [hx]

theorem splitOnChar_no_sep (sep : Char) (l : List Char) (h : ∀ c ∈ l, c ≠ sep) :
    splitOnChar sep l = [l] := by
  induction l with
  | nil => rfl
  | cons c rest ih =>
    have hc : c ≠ sep := h c (List.mem_cons_self c rest)
    have h1 : ∀ d ∈ rest, d ≠ sep := fun d hd => h d (List.mem_cons_of_mem c hd)
    calc splitOnChar sep (c :: rest)
        = (match splitOnChar sep rest with
           | [] => [[]]
           | g :: gs => if c = sep then [] :: g :: gs else (c :: g) :: gs) := rfl
      _ = [c :: rest] := by rw [ih h1]; simp [hc]

theorem deFence_fenced (l : List Char) (hl : ∀ c ∈ l, c ≠ '\n') :
    deFence ("```json\n" ++ String.mk l ++ "\n```") = String.mk l := by
  have hdata : ("```json\n" ++ String.mk l ++ "\n```" : String).data
      = "```json".data ++ '\n' :: (l ++ '\n' :: "```".data) := rfl
  show (if "```".data.isPrefixOf ("```json\n" ++ String.mk l ++ "\n```" : String).data then
          if (splitOnChar '\n' ("```json\n" ++ String.mk l ++ "\n```" : String).data).length > 2 then
            String.mk (joinNL (((splitOnChar '\n'
              ("```json\n" ++ String.mk l ++ "\n```" : String).data).drop 1).dropLast))
          else ("```json\n" ++ String.mk l ++ "\n```")
        else ("```json\n" ++ String.mk l ++ "\n```")) = String.mk l
  rw [hdata]
  rw [splitOnChar_append_sep _ _ _ (by decide)]
  rw [splitOnChar_append_sep _ _ _ hl]
  rw [splitOnChar_no_sep _ _ (by decide)]
  rfl

theorem pyStrip_fenced (l : List Char) :
    pyStrip ("```json\n" ++ String.mk l ++ "\n```") = "```json\n" ++ String.mk l ++ "\n```" := by
  have e1 : (("```json\n" ++ String.mk l ++ "\n```" : String).data).dropWhile isPySpace
      = ("```json\n" ++ String.mk l ++ "\n```" : String).data := rfl
  have hsh : ("```json\n" ++ String.mk l ++ "\n```" : String).data
      = ("```json\n".data ++ l) ++ "\n```".data := by
    show ("```json\n".data ++ l) ++ "\n```".data = _
    rfl
  have e2 : (("```json\n" ++ String.mk l ++ "\n```" : String).data).reverse.dropWhile isPySpace
      = (("```json\n" ++ String.mk l ++ "\n```" : String).data).reverse := by
    rw [hsh, List.reverse_append]
    rfl
  show String.mk (((("```json\n" ++ String.mk l ++ "\n```" : String).data.dropWhile
      isPySpace).reverse.dropWhile isPySpace).reverse) = _
  rw [e1, e2, List.reverse_reverse]

theorem stripAndDefence_fenced (body : String) (h : ∀ c ∈ body.data, c ≠ '\n') :
    stripAndDefence ("```json\n" ++ body ++ "\n```") = body := by
  obtain ⟨l⟩ := body
  show deFence (pyStrip ("```json\n" ++ String.mk l ++ "\n```")) = String.mk l
  rw [pyStrip_fenced l]
  exact deFence_fenced l h

/-- C1: the claim as stated is false; amended: on every non-raising exit of
`_parse_response` the returned score lies in [0, 100], and the
JSON-decode-failure fallback never raises and returns the processed reply
text as the explanation; but unexpectedly shaped parsed payloads raise, and
the explanation can be empty. -/
theorem c1_parse_response_clamped_and_fallback_total :
    ∀ response : String,
      (∀ res, parse_response response = .ok res → 0 ≤ res.score ∧ res.score ≤ 100) ∧
      (json_loads (stripAndDefence response) = none →
        parse_response response = .ok (fallbackParse (stripAndDefence response))) := by
  intro response
  constructor
  · intro res h
    unfold parse_response at h
    cases hj : json_loads (stripAndDefence response) with
    | some d =>
      simp only [hj] at h
      exact parseSuccess_score d res h
    | none =>
      simp only [hj, Except.ok.injEq] at h
      rw [← h]
      exact score_clamp_bounds _
  · intro hj
    unfold parse_response
    simp only [hj]

/-- C1 counterexample: a reply decoding to a JSON array makes
`_parse_response` raise `AttributeError` (a parse error reaches the
caller), and the empty reply returns an empty explanation. -/
theorem c1_counterexample :
    parse_response "[]" = .error .attributeError ∧
    parse_response "" = .ok ⟨50, Json.str ""⟩ :=
  ⟨rfl, rfl⟩

/-- C1 witness: the amended theorem applied to the empty reply. -/
theorem c1_witness :
    (0 ≤ (⟨50, Json.str ""⟩ : EvalResult).score ∧ (⟨50, Json.str ""⟩ : EvalResult).score ≤ 100) ∧
    parse_response "" = .ok (fallbackParse (stripAndDefence "")) :=
  ⟨(c1_parse_response_clamped_and_fallback_total "").1 ⟨50, Json.str ""⟩ rfl,
   (c1_parse_response_clamped_and_fallback_total "").2 rfl⟩

/-- C5: the claim as stated is false (the explanation is the trimmed and
de-fenced text, not the raw reply verbatim); amended: on decode failure the
result's score is the first permissive match clamped to [0, 100] (50 when
there is none) and the explanation is the processed reply text. -/
theorem c5_fallback_processed_text :
    ∀ (response : String) (res : EvalResult),
      json_loads (stripAndDefence response) = none →
      parse_response response = .ok res →
      res.explanation = .str (stripAndDefence response) ∧
      ((∃ ds, reSearchScore (stripAndDefence response).data = some ds ∧
          res.score = max 0 (min 100 (digitsToNat ds : Int))) ∨
        (reSearchScore (stripAndDefence response).data = none ∧ res.score = 50)) := by
  intro response res hj h
  unfold parse_response at h
  simp only [hj, Except.ok.injEq] at h
  rw [← h]
  refine ⟨rfl, ?_⟩
  unfold fallbackParse
  cases hs : reSearchScore (stripAndDefence response).data with
  | some ds =>
    left
    exact ⟨ds, rfl, by simp [hs]⟩
  | none =>
    right
    refine ⟨rfl, ?_⟩
    simp only [hs]
    decide

/-- C5 counterexample: for the reply `"  score: 73"` the fallback
explanation is the trimmed text, which differs from the raw reply. -/
theorem c5_counterexample :
    parse_response "  score: 73" = .ok ⟨73, Json.str "score: 73"⟩ ∧
    ("score: 73" : String) ≠ "  score: 73" :=
  ⟨rfl, by decide⟩

/-- C5 witness: the amended theorem applied to a garbage reply holding
`score: 73`. -/
theorem c5_witness :
    (⟨73, Json.str "junk score: 73"⟩ : EvalResult).explanation
        = .str (stripAndDefence "junk score: 73") ∧
    ((∃ ds, reSearchScore (stripAndDefence "junk score: 73").data = some ds ∧
        (⟨73, Json.str "junk score: 73"⟩ : EvalResult).score
          = max 0 (min 100 (digitsToNat ds : Int))) ∨
      (reSearchScore (stripAndDefence "junk score: 73").data = none ∧
        (⟨73, Json.str "junk score: 73"⟩ : EvalResult).score = 50)) :=
  c5_fallback_processed_text "junk score: 73" ⟨73, Json.str "junk score: 73"⟩ rfl rfl

/-- C6: the claim as stated is false (stripping is applied whenever the
trimmed reply has more than two lines, i.e. it is skipped only when it
would leave no line, not fewer than two); amended: de-fencing is skipped
when the trimmed reply has at most two lines, and a fenced well-formed
one-line JSON reply de-fences to exactly its payload line, which then
parses. -/
theorem c6_defence_boundary :
    (∀ r : String, (splitOnChar '\n' (pyStrip r).data).length ≤ 2 →
        stripAndDefence r = pyStrip r) ∧
    (∀ (body : String) (d : Json), (∀ c ∈ body.data, c ≠ '\n') →
        json_loads body = some d →
        json_loads (stripAndDefence ("```json\n" ++ body ++ "\n```")) = some d) := by
  constructor
  · intro r hlen
    show (if "```".data.isPrefixOf (pyStrip r).data then
            if (splitOnChar '\n' (pyStrip r).data).length > 2 then
              String.mk (joinNL (((splitOnChar '\n' (pyStrip r).data).drop 1).dropLast))
            else pyStrip r
          else pyStrip r) = pyStrip r
    have h2 : ¬ ((splitOnChar '\n' (pyStrip r).data).length > 2) := by omega
    rw [if_neg h2, ite_self]
  · intro body d hnl hparse
    rw [stripAndDefence_fenced body hnl]
    exact hparse

/-- C6 counterexample: a three-line fenced reply is stripped down to its
single middle line, although the claim says stripping is skipped whenever
fewer than 2 lines would remain. -/
theorem c6_counterexample :
    pyStrip "```\nX\n```" = "```\nX\n```" ∧
    stripAndDefence "```\nX\n```" = "X" ∧
    (splitOnChar '\n' ("X" : String).data).length = 1 ∧
    ("X" : String) ≠ "```\nX\n```" :=
  ⟨rfl, rfl, rfl, by decide⟩

/-- C6 witness: the amended theorem applied to a two-line reply and to a
fenced JSON payload. -/
theorem c6_witness :
    stripAndDefence "hi" = pyStrip "hi" ∧
    json_loads (stripAndDefence ("```json\n" ++ "\x7b\"score\": 3\x7d" ++ "\n```"))
      = some (.obj [("score", Json.num 3)]) :=
  ⟨c6_defence_boundary.1 "hi" (by decide),
   c6_defence_boundary.2 "\x7b\"score\": 3\x7d" (.obj [("score", Json.num 3)]) (by decide) rfl⟩

/-- C9: the claim as stated is false (the rendered strengths section uses
the `### ✅ Strengths:` heading and a trailing newline, not the plain
`Strengths:` of the scenario); amended: the scenario reply yields score 80
and explanation `"Login present\n\n### ✅ Strengths:\n- login\n"`, with the
weaknesses section omitted because the empty list is falsy. -/
theorem c9_structured_reply_rendering :
    parse_response c9reply
      = .ok ⟨80, Json.str "Login present\n\n### ✅ Strengths:\n- login\n"⟩ ∧
    pyTruthy (Json.arr []) = false :=
  ⟨rfl, rfl⟩

/-- C9 counterexample: the actual explanation differs from the one the
claim specifies. -/
theorem c9_counterexample :
    parse_response c9reply
      = .ok ⟨80, Json.str "Login present\n\n### ✅ Strengths:\n- login\n"⟩ ∧
    Json.str "Login present\n\n### ✅ Strengths:\n- login\n"
      ≠ Json.str "Login present\n\nStrengths:\n- login" :=
  ⟨rfl, fun hEq => by
    injection hEq with h2
    exact absurd h2 (by decide)⟩

theorem scanGo_length_le (maxF : Nat) (l : List FsFile) (acc : List FileRec)
    (h : acc.length < maxF) : (scanGo maxF l acc).length ≤ maxF := by
  induction l generalizing acc with
  | nil => simpa [scanGo] using Nat.le_of_lt h
  | cons f rest ih =>
    by_cases hf : f.isFile = true
    · by_cases hig : (ignoreDirs.any fun d => f.parts.contains d) = true
      · simp only [scanGo, hf, hig, if_true]
        exact ih acc h
      · by_cases hext : codeExtensions.contains (pathSuffix f.name) = true
        · cases hr : f.readResult with
          | none =>
            simp only [scanGo, hf, hig, hext, hr, if_true, if_false, eq_self_iff_true, Bool.false_eq_true]
            exact ih acc h
          | some content =>
            simp only [scanGo, hf, hig, hext, hr, if_true, if_false, eq_self_iff_true, Bool.false_eq_true]
            by_cases hstop :
                maxF ≤ (acc ++ [(⟨f.relPath, f.name, capScanContent content, f.size⟩ : FileRec)]).length
            · simp only [hstop, if_true]
              simp only [List.length_append, List.length_cons, List.length_nil] at hstop ⊢
              omega
            · simp only [hstop, if_false]
              refine ih _ ?_
              simp only [List.length_append, List.length_cons, List.length_nil] at hstop ⊢
              omega
        · simp only [scanGo, hf, hig, hext, if_true, if_false, eq_self_iff_true, Bool.false_eq_true]
          exact ih acc h
    · simp only [scanGo, hf, if_false]
      exact ih acc h

theorem scanGo_stops (maxF : Nat) (l1 l2 : List FsFile) (acc : List FileRec)
    (hacc : acc.length < maxF) (h : (scanGo maxF l1 acc).length = maxF) :
    scanGo maxF (l1 ++ l2) acc = scanGo maxF l1 acc := by
  induction l1 generalizing acc with
  | nil => simp [scanGo] at h; omega
  | cons f rest ih =>
    by_cases hf : f.isFile = true
    · by_cases hig : (ignoreDirs.any fun d => f.parts.contains d) = true
      · simp only [scanGo, hf, hig, if_true] at h ⊢
        exact ih acc hacc h
      · by_cases hext : codeExtensions.contains (pathSuffix f.name) = true
        · cases hr : f.readResult with
          | none =>
            simp only [scanGo, hf, hig, hext, hr, if_true, if_false, eq_self_iff_true, Bool.false_eq_true] at h ⊢
            exact ih acc hacc h
          | some content =>
            simp only [scanGo, hf, hig, hext, hr, if_true, if_false, eq_self_iff_true, Bool.false_eq_true] at h ⊢
            by_cases hstop :
                maxF ≤ (acc ++ [(⟨f.relPath, f.name, capScanContent content, f.size⟩ : FileRec)]).length
            · simp only [hstop, if_true]
            · simp only [hstop, if_false] at h ⊢
              refine ih _ ?_ h
              simp only [List.length_append, List.length_cons, List.length_nil] at hstop ⊢
              omega
        · simp only [scanGo, hf, hig, hext, if_true, if_false, eq_self_iff_true, Bool.false_eq_true] at h ⊢
          exact ih acc hacc h
    · simp only [scanGo, hf, if_false] at h ⊢
      exact ih acc hacc h

/-- C2: the claim as stated is false for the API strategy; amended: the
clone-scan strategy returns at most 50 records and stops enumerating as
soon as the cap is reached (appending more input files changes nothing once
the cap is hit), while the API strategy slices each listing to 50 entries
but appends file records without re-checking the budget after a
subdirectory recursion and can exceed 50. -/
theorem c2_scan_capped_and_stops :
    (∀ files, (scanRepository files 50).length ≤ 50) ∧
    (∀ files extra, (scanRepository files 50).length = 50 →
        scanRepository (files ++ extra) 50 = scanRepository files 50) := by
  constructor
  · intro files
    exact scanGo_length_le 50 files [] (by norm_num)
  · intro files extra h
    exact scanGo_stops 50 files extra [] (by norm_num) h

/-- C2 counterexample: a top-level listing made of one full directory and
one more file makes `_extract_files_info` return 51 records. -/
theorem c2_counterexample :
    (extractFilesInfo apiContentsOverCap 50).length = 51 ∧
    50 < (extractFilesInfo apiContentsOverCap 50).length :=
  ⟨rfl, by decide⟩

/-- C2 witness: the amended theorem applied to 60 scannable files. -/
theorem c2_witness :
    (scanRepository scanManyFiles 50).length ≤ 50 ∧
    scanRepository (scanManyFiles ++ scanExtraFiles) 50 = scanRepository scanManyFiles 50 :=
  ⟨c2_scan_capped_and_stops.1 scanManyFiles,
   c2_scan_capped_and_stops.2 scanManyFiles scanExtraFiles (by rfl)⟩

/-- C3: the claim as stated is false for the directory-listing and the
file-content stages; amended: acquisition falls back to clone when the API
path raises at either request, when the repository-info request is non-2xx,
or when its payload is malformed; a non-2xx directory listing instead
yields an API snapshot with an empty file list, and per-file failures only
omit the file. API errors never escape as exceptions. -/
theorem c3_api_soft_failures :
    ∀ w : World,
      (∀ owner repo, w.repoReq = .exn → getRepoViaApi w owner repo = none) ∧
      (∀ owner repo s b, w.repoReq = .resp s b → s ≠ 200 → getRepoViaApi w owner repo = none) ∧
      (∀ owner repo s, w.repoReq = .resp s none → getRepoViaApi w owner repo = none) ∧
      (∀ owner repo, w.contentsReq = .exn → getRepoViaApi w owner repo = none) ∧
      (∀ url owner repo, parseGithubUrl url = (some owner, some repo) →
        owner ≠ "" → repo ≠ "" →
        getRepoViaApi w owner repo = none →
        get_repository_info w url = .ok (getRepoViaClone w url)) := by
  intro w
  refine ⟨?_, ?_, ?_, ?_, ?_⟩
  · intro owner repo h
    simp [getRepoViaApi, h]
  · intro owner repo s b h hs
    simp [getRepoViaApi, h, hs]
  · intro owner repo s h
    rcases b2 : w.contentsReq with _ | ⟨cs, cb⟩ <;> simp [getRepoViaApi, h, b2]
  · intro owner repo h
    cases hr : w.repoReq with
    | exn => simp [getRepoViaApi, hr]
    | resp s b =>
      rcases b with _ | j
      · simp [getRepoViaApi, hr]
      · cases j <;> simp [getRepoViaApi, hr, h]
  · intro url owner repo hp ho hr hapi
    unfold get_repository_info
    rw [hp]
    simp [ho, hr, hapi]

/-- C3 counterexample: token set, repository-info request 200, but the
directory-listing request returns 404 with a reachable clone target — the
result still comes from the API path (empty file list), not from clone. -/
theorem c3_counterexample :
    worldDirListing404.contentsReq = ContentsReqOutcome.resp 404 none ∧
    worldDirListing404.cloneResult ≠ none ∧
    get_repository_info worldDirListing404 "https://github.com/o/r"
      = .ok (some (mkApiInfo [("name", Json.str "n")] "o" "r" [])) ∧
    (mkApiInfo [("name", Json.str "n")] "o" "r" []).source = "api" :=
  ⟨rfl, by simp [worldDirListing404], rfl, rfl⟩

/-- C3 witness: the amended theorem applied to a world where both API
requests raise. -/
theorem c3_witness :
    getRepoViaApi worldApiExn "o" "r" = none ∧
    get_repository_info worldApiExn "https://github.com/o/r"
      = .ok (getRepoViaClone worldApiExn "https://github.com/o/r") :=
  ⟨(c3_api_soft_failures worldApiExn).1 "o" "r" rfl,
   (c3_api_soft_failures worldApiExn).2.2.2.2 "https://github.com/o/r" "o" "r" rfl
     (by decide) (by decide) ((c3_api_soft_failures worldApiExn).1 "o" "r" rfl)⟩

theorem strDataAppend (a b : String) : (a ++ b).data = a.data ++ b.data := rfl

theorem cap_length_over (c : String) (h : 50000 < pyLen c) :
    pyLen (capScanContent c) = 50016 := by
  unfold capScanContent
  rw [if_pos h]
  unfold pyLen at h ⊢
  rw [strDataAppend]
  simp only [pySliceTo, List.length_append, List.length_take, List.length_cons,
    List.length_nil]
  omega

/-- C4: the claim as stated is false in both directions; amended: a locally
scanned record's content is stored unchanged when it is at most 50,000
characters, and otherwise equals the 50,000-character cut plus the 16
character truncation marker (50,016 characters, i.e. over the stated cap);
an API-fetched record's content never exceeds 50,000 characters and never
carries a marker. -/
theorem longContent_len : pyLen longContent = 50001 := List.length_replicate 50001 'a'

theorem c4_content_caps :
    (∀ c : String, pyLen c ≤ 50000 → capScanContent c = c) ∧
    (∀ c : String, 50000 < pyLen c →
        capScanContent c = pySliceTo 50000 c ++ "\n... (truncated)" ∧
        pyLen (capScanContent c) = 50016) ∧
    (∀ b : String, pyLen (pySliceTo 50000 b) ≤ 50000) := by
  refine ⟨?_, ?_, ?_⟩
  · intro c h
    unfold capScanContent
    rw [if_neg (by omega)]
  · intro c h
    refine ⟨?_, cap_length_over c h⟩
    unfold capScanContent
    rw [if_pos h]
  · intro b
    simp only [pyLen, pySliceTo, List.length_take]
    omega

/-- C4 counterexample: a 50,001-character file: the scanned record's stored
content is 50,016 characters (over the 50,000 cap), and the API record's
truncated content does not end with the truncation marker. -/
theorem c4_counterexample :
    50000 < pyLen longContent ∧
    pyLen (capScanContent longContent) = 50016 ∧
    scanRepository [fsLongFile] 50
      = [⟨"a.py", "a.py", capScanContent longContent, 50001⟩] ∧
    extractFilesInfo [apiLongEntry] 50
      = [⟨"a.py", "a.py", pySliceTo 50000 longContent, 50001⟩] ∧
    ¬ ("\n... (truncated)".data <:+ (pySliceTo 50000 longContent).data) := by
  have hlen : pyLen longContent = 50001 := longContent_len
  refine ⟨by omega, cap_length_over _ (by omega), rfl, rfl, ?_⟩
  rintro ⟨t, ht⟩
  have hrep : (pySliceTo 50000 longContent).data = List.replicate 50000 'a' := by
    show (List.replicate 50001 'a').take 50000 = List.replicate 50000 'a'
    rw [List.take_replicate, Nat.min_def]
    norm_num
  rw [hrep] at ht
  have hmem : ')' ∈ List.replicate 50000 'a' := by
    rw [← ht]
    exact List.mem_append_right _ (by decide)
  exact absurd (List.eq_of_mem_replicate hmem) (by decide)

/-- C4 witness: the amended theorem applied to a short and to an over-cap
content and to an API body. -/
theorem c4_witness :
    capScanContent "ok" = "ok" ∧
    (capScanContent longContent = pySliceTo 50000 longContent ++ "\n... (truncated)" ∧
      pyLen (capScanContent longContent) = 50016) ∧
    pyLen (pySliceTo 50000 "body") ≤ 50000 :=
  ⟨c4_content_caps.1 "ok" (by decide),
   c4_content_caps.2.1 longContent (by rw [longContent_len]; norm_num),
   c4_content_caps.2.2 "body"⟩

/-- C8: with no API credential configured (unset or empty token), the API
strategy returns `None` without consulting the API oracles — the overall
result is unchanged under any API outcomes — and any snapshot produced
comes from the clone path, with `source = "clone"`. -/
theorem c8_no_token_uses_clone :
    ∀ (w : World) (url : String),
      w.github_token = none ∨ w.github_token = some "" →
      (∀ owner repo, getRepoViaApi w owner repo = none) ∧
      (∀ rq cq, get_repository_info { w with repoReq := rq, contentsReq := cq } url
          = get_repository_info w url) ∧
      (∀ info, get_repository_info w url = .ok (some info) → info.source = "clone") := by
  intro w url h
  obtain ⟨tok, rr, cr, clr, td⟩ := w
  have htok : tokenTruthy tok = false := by
    rcases h with h | h <;> (simp at h; simp [tokenTruthy, h])
  have hapi : ∀ (rr2 : RepoReqOutcome) (cr2 : ContentsReqOutcome) (owner repo : String),
      getRepoViaApi ⟨tok, rr2, cr2, clr, td⟩ owner repo = none := by
    intro rr2 cr2 owner repo
    simp [getRepoViaApi, htok]
  refine ⟨hapi rr cr, ?_, ?_⟩
  · intro rq cq
    unfold get_repository_info
    cases hp : parseGithubUrl url with
    | mk o? r? =>
      cases o? with
      | none => rfl
      | some o =>
        cases r? with
        | none => rfl
        | some r => simp [hapi, getRepoViaClone]
  · intro info hres
    unfold get_repository_info at hres
    cases hp : parseGithubUrl url with
    | mk o? r? =>
      rw [hp] at hres
      cases o? with
      | none => exact Except.noConfusion hres
      | some o =>
        cases r? with
        | none => exact Except.noConfusion hres
        | some r =>
          simp only [hapi] at hres
          split at hres
          · exact Except.noConfusion hres
          · injection hres with h2
            unfold getRepoViaClone at h2
            cases hc : clr with
            | none =>
              simp only [hc] at h2
              exact Option.noConfusion h2
            | some files =>
              simp only [hc, Option.some.injEq] at h2
              rw [← h2]

/-- C8 witness: the theorem applied to a token-less world with a reachable
clone holding one Python file. -/
theorem c8_witness :
    getRepoViaApi worldNoToken "o" "r" = none ∧
    get_repository_info { worldNoToken with repoReq := .exn, contentsReq := .exn }
        "https://github.com/o/r"
      = get_repository_info worldNoToken "https://github.com/o/r" ∧
    RepoInfo.source
      ⟨Json.str "repo", Json.str "r", Json.str "", Json.str "Python",
       Json.str "https://github.com/o/r", [⟨"m.py", "m.py", "pass", 4⟩],
       "clone", some "/tmp/x/repo"⟩ = "clone" :=
  ⟨(c8_no_token_uses_clone worldNoToken "https://github.com/o/r" (Or.inl rfl)).1 "o" "r",
   (c8_no_token_uses_clone worldNoToken "https://github.com/o/r" (Or.inl rfl)).2.1 .exn .exn,
   (c8_no_token_uses_clone worldNoToken "https://github.com/o/r" (Or.inl rfl)).2.2
     ⟨Json.str "repo", Json.str "r", Json.str "", Json.str "Python",
      Json.str "https://github.com/o/r", [⟨"m.py", "m.py", "pass", 4⟩],
      "clone", some "/tmp/x/repo"⟩ rfl⟩

/-- C10: every snapshot produced by the clone path has the constant name
`"repo"` (the fixed checkout subdirectory) and an empty description,
whatever the input URL. -/
theorem c10_clone_constant_name :
    ∀ (w : World) (url : String) (info : RepoInfo),
      getRepoViaClone w url = some info →
      info.name = .str "repo" ∧ info.description = .str "" := by
  intro w url info h
  unfold getRepoViaClone at h
  cases hc : w.cloneResult with
  | none =>
    rw [hc] at h
    exact Option.noConfusion h
  | some files =>
    simp only [hc, Option.some.injEq] at h
    rw [← h]
    exact ⟨rfl, rfl⟩

/-- C10 witness: the theorem applied to an empty successful clone. -/
theorem c10_witness :
    RepoInfo.name
      ⟨Json.str "repo", Json.str "b", Json.str "", Json.str "Unknown",
       Json.str "https://github.com/a/b", [], "clone", some "/t/repo"⟩ = Json.str "repo" ∧
    RepoInfo.description
      ⟨Json.str "repo", Json.str "b", Json.str "", Json.str "Unknown",
       Json.str "https://github.com/a/b", [], "clone", some "/t/repo"⟩ = Json.str "" :=
  c10_clone_constant_name worldCloneOnly "https://github.com/a/b"
    ⟨Json.str "repo", Json.str "b", Json.str "", Json.str "Unknown",
     Json.str "https://github.com/a/b", [], "clone", some "/t/repo"⟩ rfl

theorem matchLit_append (p rest : List Char) : matchLit p (p ++ rest) = some rest := by
  induction p with
  | nil => rfl
  | cons c cs ih => simp [matchLit, ih]

theorem takeWhile_append_stop (p : Char → Bool) (xs : List Char) (y : Char) (ys : List Char)
    (hx : ∀ c ∈ xs, p c = true) (hy : p y = false) :
    (xs ++ y :: ys).takeWhile p = xs := by
  induction xs with
  | nil => simp [List.takeWhile, hy]
  | cons x xs ih =>
    simp only [List.cons_append, List.takeWhile_cons, hx x (List.mem_cons_self x xs), if_true]
    rw [ih (fun c hc => hx c (List.mem_cons_of_mem x hc))]

theorem dropWhile_append_stop (p : Char → Bool) (xs : List Char) (y : Char) (ys : List Char)
    (hx : ∀ c ∈ xs, p c = true) (hy : p y = false) :
    (xs ++ y :: ys).dropWhile p = y :: ys := by
  induction xs with
  | nil => simp [List.dropWhile, hy]
  | cons x xs ih =>
    simp only [List.cons_append, List.dropWhile_cons, hx x (List.mem_cons_self x xs), if_true]
    exact ih (fun c hc => hx c (List.mem_cons_of_mem x hc))

theorem suffix1Ok_false_head (c : Char) (rest : List Char)
    (h1 : c ≠ '/') (h2 : c ≠ '.') (h3 : c ≠ '\n') : suffix1Ok (c :: rest) = false := by
  simp [suffix1Ok, h1, h2, h3]

theorem suffix2Ok_false_head (c : Char) (rest : List Char)
    (h1 : c ≠ '/') (h3 : c ≠ '\n') : suffix2Ok (c :: rest) = false := by
  unfold suffix2Ok
  cases rest with
  | nil => simp [h1, h3]
  | cons d ds => simp [h1, h3]

theorem findRepo1Go_through (r : List Char) (tail : List Char) :
    ∀ acc, r ≠ [] → (∀ c ∈ r, c ≠ '/' ∧ c ≠ '.' ∧ c ≠ '\n') →
    suffix1Ok tail = true →
    findRepo1Go acc (r ++ tail) = some (acc ++ r) := by
  induction r with
  | nil => intro acc hne _ _; exact absurd rfl hne
  | cons c r ih =>
    intro acc _ hr hOk
    have hc := hr c (List.mem_cons_self c r)
    show findRepo1Go acc (c :: (r ++ tail)) = some (acc ++ c :: r)
    simp only [findRepo1Go]
    rw [if_neg hc.1]
    cases r with
    | nil =>
      simp only [List.nil_append]
      rw [if_pos hOk]
    | cons c2 r2 =>
      have hc2 := hr c2 (List.mem_cons_of_mem c (List.mem_cons_self c2 r2))
      have hfalse : suffix1Ok (c2 :: (r2 ++ tail)) = false :=
        suffix1Ok_false_head c2 (r2 ++ tail) hc2.1 hc2.2.1 hc2.2.2
      rw [if_neg (by simp [hfalse])]
      exact (ih (acc ++ [c]) (by simp) (fun d hd => hr d (List.mem_cons_of_mem c hd)) hOk).trans
        (by simp)

theorem findRepo1Go_none (r : List Char) (w : List Char) :
    ∀ acc, (∀ c ∈ r, c ≠ '/' ∧ c ≠ '.' ∧ c ≠ '\n') →
    suffix1Ok ('/' :: w) = false →
    findRepo1Go acc (r ++ '/' :: w) = none := by
  induction r with
  | nil =>
    intro acc _ _
    simp [findRepo1Go]
  | cons c r ih =>
    intro acc hr hOk
    have hc := hr c (List.mem_cons_self c r)
    show findRepo1Go acc (c :: (r ++ '/' :: w)) = none
    simp only [findRepo1Go]
    rw [if_neg hc.1]
    cases r with
    | nil =>
      simp only [List.nil_append]
      rw [if_neg (by simp [hOk])]
      simp [findRepo1Go]
    | cons c2 r2 =>
      have hc2 := hr c2 (List.mem_cons_of_mem c (List.mem_cons_self c2 r2))
      have hfalse : suffix1Ok (c2 :: (r2 ++ '/' :: w)) = false :=
        suffix1Ok_false_head c2 (r2 ++ '/' :: w) hc2.1 hc2.2.1 hc2.2.2
      rw [if_neg (by simp [hfalse])]
      exact ih (acc ++ [c]) (fun d hd => hr d (List.mem_cons_of_mem c hd)) hOk

theorem findRepo2Go_through (r : List Char) (tail : List Char) :
    ∀ acc, r ≠ [] → (∀ c ∈ r, c ≠ '/' ∧ c ≠ '\n') →
    suffix2Ok tail = true →
    findRepo2Go acc (r ++ tail) = some (acc ++ r) := by
  induction r with
  | nil => intro acc hne _ _; exact absurd rfl hne
  | cons c r ih =>
    intro acc _ hr hOk
    have hc := hr c (List.mem_cons_self c r)
    show findRepo2Go acc (c :: (r ++ tail)) = some (acc ++ c :: r)
    simp only [findRepo2Go]
    rw [if_neg hc.1]
    cases r with
    | nil =>
      simp only [List.nil_append]
      rw [if_pos hOk]
    | cons c2 r2 =>
      have hc2 := hr c2 (List.mem_cons_of_mem c (List.mem_cons_self c2 r2))
      have hfalse : suffix2Ok (c2 :: (r2 ++ tail)) = false :=
        suffix2Ok_false_head c2 (r2 ++ tail) hc2.1 hc2.2
      rw [if_neg (by simp [hfalse])]
      exact (ih (acc ++ [c]) (by simp) (fun d hd => hr d (List.mem_cons_of_mem c hd)) hOk).trans
        (by simp)

theorem matchLit_github_ne_g (c : Char) (cs : List Char) (h : c ≠ 'g') :
    matchLit "github.com".data (c :: cs) = none := by
  show matchLit ('g' :: "ithub.com".data) (c :: cs) = none
  simp only [matchLit]
  rw [if_neg h]

theorem tryPat1_head_ne_g (c : Char) (cs : List Char) (h : c ≠ 'g') :
    tryPat1 (c :: cs) = none := by
  unfold tryPat1
  rw [matchLit_github_ne_g c cs h]

theorem tryPat2_head_ne_g (c : Char) (cs : List Char) (h : c ≠ 'g') :
    tryPat2 (c :: cs) = none := by
  unfold tryPat2
  rw [matchLit_github_ne_g c cs h]

theorem searchSuffix_eq_tail {α : Type} (f : List Char → Option α) (c : Char) (cs : List Char)
    (h : f (c :: cs) = none) : searchSuffix f (c :: cs) = searchSuffix f cs := by
  simp [searchSuffix, h]

theorem searchSuffix_eq_of_some {α : Type} (f : List Char → Option α) (l : List Char)
    (v : α) (h : f l = some v) : searchSuffix f l = some v := by
  cases l with
  | nil => simp [searchSuffix, h]
  | cons c cs => simp [searchSuffix, h]

theorem searchSuffix_skip {α : Type} (f : List Char → Option α)
    (hf : ∀ c cs, c ≠ 'g' → f (c :: cs) = none) :
    ∀ (pre rest : List Char), (∀ c ∈ pre, c ≠ 'g') →
      searchSuffix f (pre ++ rest) = searchSuffix f rest := by
  intro pre
  induction pre with
  | nil => intro rest _; rfl
  | cons c cs ih =>
    intro rest h
    show searchSuffix f (c :: (cs ++ rest)) = searchSuffix f rest
    rw [searchSuffix_eq_tail f c (cs ++ rest) (hf c _ (h c (List.mem_cons_self c cs)))]
    exact ih rest (fun d hd => h d (List.mem_cons_of_mem c hd))

theorem searchSuffix_none_of_no_g {α : Type} (f : List Char → Option α)
    (hf : ∀ c cs, c ≠ 'g' → f (c :: cs) = none) (hnil : f [] = none) :
    ∀ (l : List Char), (∀ c ∈ l, c ≠ 'g') → searchSuffix f l = none := by
  intro l
  induction l with
  | nil => intro _; exact hnil
  | cons c cs ih =>
    intro h
    rw [searchSuffix_eq_tail f c cs (hf c _ (h c (List.mem_cons_self c cs)))]
    exact ih (fun d hd => h d (List.mem_cons_of_mem c hd))

theorem rstripSlash_no_slash (s : String) (h : ∀ c ∈ s.data, c ≠ '/') :
    rstripSlash s = s := by
  unfold rstripSlash
  have : s.data.reverse.dropWhile (fun c => c = '/') = s.data.reverse := by
    cases hrev : s.data.reverse with
    | nil => rfl
    | cons c cs =>
      have hc : c ∈ s.data := by
        rw [← List.mem_reverse, hrev]
        exact List.mem_cons_self c cs
      simp [List.dropWhile, h c hc]
  rw [this, List.reverse_reverse]

theorem isEmpty_false_of_ne_nil {α : Type} (l : List α) (h : l ≠ []) : l.isEmpty = false := by
  cases l with
  | nil => exact absurd rfl h
  | cons a as => rfl

theorem tryPat1_github_eval (o tail : List Char) (ho : o ≠ []) (ho2 : ∀ c ∈ o, c ≠ '/') :
    tryPat1 ("github.com".data ++ '/' :: (o ++ '/' :: tail))
      = match findRepo1Go [] tail with
        | some rp => some (o, rp)
        | none => none := by
  have hx : ∀ c ∈ o, (fun c2 => decide (c2 ≠ '/')) c = true := by
    intro c hc
    simp [ho2 c hc]
  have htake := takeWhile_append_stop (fun c2 => decide (c2 ≠ '/')) o '/' tail hx (by decide)
  have hdrop := dropWhile_append_stop (fun c2 => decide (c2 ≠ '/')) o '/' tail hx (by decide)
  unfold tryPat1
  rw [matchLit_append]
  simp only [htake, hdrop, isEmpty_false_of_ne_nil o ho]
  simp

theorem tryPat2_github_eval (o tail : List Char) (ho : o ≠ []) (ho2 : ∀ c ∈ o, c ≠ '/') :
    tryPat2 ("github.com".data ++ '/' :: (o ++ '/' :: tail))
      = match findRepo2Go [] tail with
        | some rp => some (o, rp)
        | none => none := by
  have hx : ∀ c ∈ o, (fun c2 => decide (c2 ≠ '/')) c = true := by
    intro c hc
    simp [ho2 c hc]
  have htake := takeWhile_append_stop (fun c2 => decide (c2 ≠ '/')) o '/' tail hx (by decide)
  have hdrop := dropWhile_append_stop (fun c2 => decide (c2 ≠ '/')) o '/' tail hx (by decide)
  unfold tryPat2
  rw [matchLit_append]
  simp only [htake, hdrop, isEmpty_false_of_ne_nil o ho]
  simp

theorem parseGithubUrl_variant (o r V : String)
    (ho1 : o.data ≠ []) (ho : ∀ c ∈ o.data, c ≠ '/' ∧ c ≠ '.' ∧ c ≠ '\n' ∧ c ≠ 'g')
    (hr1 : r.data ≠ []) (hrr : ∀ c ∈ r.data, c ≠ '/' ∧ c ≠ '.' ∧ c ≠ '\n' ∧ c ≠ 'g')
    (hv : suffix1Ok V.data = true) :
    parseGithubUrl ("https://github.com/" ++ o ++ "/" ++ r ++ V) = (some o, some r) := by
  have hdata : (("https://github.com/" ++ o ++ "/" ++ r ++ V) : String).data
      = "https://".data ++ ("github.com".data ++ '/' :: (o.data ++ '/' :: (r.data ++ V.data))) := by
    show ((("https://github.com/".data ++ o.data) ++ "/".data) ++ r.data) ++ V.data = _
    simp [List.append_assoc]
  have hfind : findRepo1Go [] (r.data ++ V.data) = some r.data :=
    (findRepo1Go_through r.data V.data [] hr1
      (fun c hc => ⟨(hrr c hc).1, (hrr c hc).2.1, (hrr c hc).2.2.1⟩) hv).trans (by simp)
  have hpat : tryPat1 ("github.com".data ++ '/' :: (o.data ++ '/' :: (r.data ++ V.data)))
      = some (o.data, r.data) := by
    rw [tryPat1_github_eval o.data (r.data ++ V.data) ho1 (fun c hc => (ho c hc).1)]
    rw [hfind]
  unfold parseGithubUrl
  rw [hdata]
  rw [searchSuffix_skip tryPat1 tryPat1_head_ne_g "https://".data _ (by decide)]
  rw [searchSuffix_eq_of_some tryPat1 _ _ hpat]
  show (some (String.mk o.data), some (rstripSlash (String.mk r.data))) = (some o, some r)
  rw [stringMkData, rstripSlash_no_slash (String.mk r.data) (fun c hc => (hrr c hc).1)]

theorem parseGithubUrl_path (o r p : String)
    (ho1 : o.data ≠ []) (ho : ∀ c ∈ o.data, c ≠ '/' ∧ c ≠ '.' ∧ c ≠ '\n' ∧ c ≠ 'g')
    (hr1 : r.data ≠ []) (hrr : ∀ c ∈ r.data, c ≠ '/' ∧ c ≠ '.' ∧ c ≠ '\n' ∧ c ≠ 'g')
    (hp1 : p.data.head? = some '/') (hp : ∀ c ∈ p.data, c ≠ '.' ∧ c ≠ '\n' ∧ c ≠ 'g')
    (hnOk : suffix1Ok p.data = false) :
    parseGithubUrl ("https://github.com/" ++ o ++ "/" ++ r ++ p) = (some o, some r) := by
  obtain ⟨w, hw⟩ : ∃ w, p.data = '/' :: w := by
    cases hpd : p.data with
    | nil => rw [hpd] at hp1; exact Option.noConfusion hp1
    | cons c cs =>
      rw [hpd] at hp1
      simp only [List.head?_cons, Option.some.injEq] at hp1
      exact ⟨cs, by rw [hp1]⟩
  have hdata : (("https://github.com/" ++ o ++ "/" ++ r ++ p) : String).data
      = "https://".data ++ ("github.com".data ++ '/' :: (o.data ++ '/' :: (r.data ++ p.data))) := by
    show ((("https://github.com/".data ++ o.data) ++ "/".data) ++ r.data) ++ p.data = _
    simp [List.append_assoc]
  have hfind1 : findRepo1Go [] (r.data ++ p.data) = none := by
    rw [hw]
    exact findRepo1Go_none r.data w []
      (fun c hc => ⟨(hrr c hc).1, (hrr c hc).2.1, (hrr c hc).2.2.1⟩) (hw ▸ hnOk)
  have hpat1 : tryPat1 ("github.com".data ++ '/' :: (o.data ++ '/' :: (r.data ++ p.data)))
      = none := by
    rw [tryPat1_github_eval o.data (r.data ++ p.data) ho1 (fun c hc => (ho c hc).1)]
    rw [hfind1]
  have hng : ∀ c ∈ ("ithub.com".data ++ ('/' :: (o.data ++ '/' :: (r.data ++ p.data)))), c ≠ 'g' := by
    intro c hc
    rcases List.mem_append.mp hc with h1 | h1
    · have h1b : c ∈ ['i', 't', 'h', 'u', 'b', '.', 'c', 'o', 'm'] := h1
      simp only [List.mem_cons, List.not_mem_nil, or_false] at h1b
      rcases h1b with rfl | rfl | rfl | rfl | rfl | rfl | rfl | rfl | rfl <;> decide
    · rcases List.mem_cons.mp h1 with rfl | h2
      · decide
      · rcases List.mem_append.mp h2 with h3 | h3
        · exact (ho c h3).2.2.2
        · rcases List.mem_cons.mp h3 with rfl | h4
          · decide
          · rcases List.mem_append.mp h4 with h5 | h5
            · exact (hrr c h5).2.2.2
            · exact (hp c h5).2.2
  have hsearch1 : searchSuffix tryPat1
      ("github.com".data ++ '/' :: (o.data ++ '/' :: (r.data ++ p.data))) = none := by
    rw [show ("github.com".data ++ '/' :: (o.data ++ '/' :: (r.data ++ p.data)))
        = 'g' :: ("ithub.com".data ++ ('/' :: (o.data ++ '/' :: (r.data ++ p.data)))) from rfl]
    have hpat1b : tryPat1
        ('g' :: ("ithub.com".data ++ ('/' :: (o.data ++ '/' :: (r.data ++ p.data))))) = none :=
      hpat1
    rw [searchSuffix_eq_tail tryPat1 'g'
      ("ithub.com".data ++ ('/' :: (o.data ++ '/' :: (r.data ++ p.data)))) hpat1b]
    exact searchSuffix_none_of_no_g tryPat1 tryPat1_head_ne_g rfl _ hng
  have hOk2 : suffix2Ok p.data = true := by
    rw [hw]
    have hcf : w.dropLast.contains '\n' = false := by
      cases hcc : w.dropLast.contains '\n' with
      | false => rfl
      | true =>
        exfalso
        have hmem : '\n' ∈ w.dropLast := List.elem_iff.mp hcc
        have hmem2 : '\n' ∈ p.data := by
          rw [hw]
          exact List.mem_cons_of_mem '/' (List.dropLast_subset w hmem)
        exact absurd rfl (hp '\n' hmem2).2.1
    show (!(w.dropLast.contains '\n')) = true
    rw [hcf]
    rfl
  have hfind2 : findRepo2Go [] (r.data ++ p.data) = some r.data :=
    (findRepo2Go_through r.data p.data [] hr1
      (fun c hc => ⟨(hrr c hc).1, (hrr c hc).2.2.1⟩) hOk2).trans (by simp)
  have hpat2 : tryPat2 ("github.com".data ++ '/' :: (o.data ++ '/' :: (r.data ++ p.data)))
      = some (o.data, r.data) := by
    rw [tryPat2_github_eval o.data (r.data ++ p.data) ho1 (fun c hc => (ho c hc).1)]
    rw [hfind2]
  unfold parseGithubUrl
  rw [hdata]
  rw [searchSuffix_skip tryPat1 tryPat1_head_ne_g "https://".data _ (by decide)]
  rw [hsearch1]
  rw [searchSuffix_skip tryPat2 tryPat2_head_ne_g "https://".data _ (by decide)]
  rw [searchSuffix_eq_of_some tryPat2 _ _ hpat2]
  show (some (String.mk o.data), some (rstripSlash (String.mk r.data))) = (some o, some r)
  rw [stringMkData, rstripSlash_no_slash (String.mk r.data) (fun c hc => (hrr c hc).1)]

/-- C7: the claim as stated is false; amended: the strict pattern is tried
before the loose one and the first match wins; for every owner and repo
over characters excluding `/`, `.`, newline and `g` (the latter ruling out
a second `github.com` match site), the bare, `.git`, trailing-slash and
trailing-path variants of the URL all resolve to the same (owner, repo)
pair — except that a `.git` suffix followed by further path segments keeps
`.git` in the repo segment (shown by the counterexample); and every URL
matching neither pattern makes `get_repository_info` raise `ValueError`. -/
theorem c7_resolver :
    ∀ (o r p : String) (w : World),
      o.data ≠ [] → (∀ c ∈ o.data, c ≠ '/' ∧ c ≠ '.' ∧ c ≠ '\n' ∧ c ≠ 'g') →
      r.data ≠ [] → (∀ c ∈ r.data, c ≠ '/' ∧ c ≠ '.' ∧ c ≠ '\n' ∧ c ≠ 'g') →
      p.data.head? = some '/' → (∀ c ∈ p.data, c ≠ '.' ∧ c ≠ '\n' ∧ c ≠ 'g') →
      parseGithubUrl ("https://github.com/" ++ o ++ "/" ++ r) = (some o, some r) ∧
      parseGithubUrl ("https://github.com/" ++ o ++ "/" ++ r ++ ".git") = (some o, some r) ∧
      parseGithubUrl ("https://github.com/" ++ o ++ "/" ++ r ++ "/") = (some o, some r) ∧
      parseGithubUrl ("https://github.com/" ++ o ++ "/" ++ r ++ p) = (some o, some r) ∧
      (∀ url, parseGithubUrl url = (none, none) →
        get_repository_info w url = .error .valueError) := by
  intro o r p w ho1 ho hr1 hrr hp1 hp
  refine ⟨?_, ?_, ?_, ?_, ?_⟩
  · have h0 := parseGithubUrl_variant o r "" ho1 ho hr1 hrr (by decide)
    have hempty : ("https://github.com/" ++ o ++ "/" ++ r ++ "" : String)
        = "https://github.com/" ++ o ++ "/" ++ r := by
      apply String.ext
      simp [strDataAppend]
    rw [hempty] at h0
    exact h0
  · exact parseGithubUrl_variant o r ".git" ho1 ho hr1 hrr (by decide)
  · exact parseGithubUrl_variant o r "/" ho1 ho hr1 hrr (by decide)
  · cases hb : suffix1Ok p.data with
    | true => exact parseGithubUrl_variant o r p ho1 ho hr1 hrr hb
    | false => exact parseGithubUrl_path o r p ho1 ho hr1 hrr hp1 hp hb
  · intro url h
    simp [get_repository_info, h]

/-- C7 counterexample: with a `.git` suffix alone the repo group is `r`,
but with `.git` followed by a path suffix the loose pattern keeps `r.git`,
so the two well-formed variants resolve to different pairs. -/
theorem c7_counterexample :
    parseGithubUrl "https://github.com/o/r.git" = (some "o", some "r") ∧
    parseGithubUrl "https://github.com/o/r.git/tree/main" = (some "o", some "r.git") ∧
    ("r.git" : String) ≠ "r" :=
  ⟨rfl, rfl, by decide⟩

/-- C7 witness: the amended theorem applied to owner `alice`, repo `proj`,
path `/tree/main`, plus a URL with no `github.com` segment. -/
theorem c7_witness :
    parseGithubUrl ("https://github.com/" ++ "alice" ++ "/" ++ "proj")
      = (some "alice", some "proj") ∧
    parseGithubUrl ("https://github.com/" ++ "alice" ++ "/" ++ "proj" ++ ".git")
      = (some "alice", some "proj") ∧
    parseGithubUrl ("https://github.com/" ++ "alice" ++ "/" ++ "proj" ++ "/")
      = (some "alice", some "proj") ∧
    parseGithubUrl ("https://github.com/" ++ "alice" ++ "/" ++ "proj" ++ "/tree/main")
      = (some "alice", some "proj") ∧
    get_repository_info worldCloneOnly "https://example.com/x" = .error .valueError := by
  have T := c7_resolver "alice" "proj" "/tree/main" worldCloneOnly
    (by decide) (by decide) (by decide) (by decide) (by decide) (by decide)
  exact ⟨T.1, T.2.1, T.2.2.1, T.2.2.2.1, T.2.2.2.2 "https://example.com/x" rfl⟩
